import Mathlib

/-!
Verification development for the study-planner engine (`app.py`).

The embedding models clock times as minutes since midnight, hour amounts as
rationals, and the plan structures (`TaskAllocation`, `DayPlan`, `WeeklyPlan`)
as plain inductive data.  The program stores each task allocation as a string
of the shape "Name (H.Hh)" whose hour figure is produced with a one-decimal
format; the embedding therefore records, in each task entry, exactly the
rounded value that the string carries, while the allocator's internal
accounting (`remaining_hours`, `day_hours_used`) uses the exact amounts, as in
the source.  All the hour values the program manipulates are dyadic rationals
that are exact in binary floating point, so the one-decimal format amounts to
round-half-to-even on tenths, which is what `roundTenth` implements.
-/

namespace StudyPlanner

/-- Floor of a rational, via flooring integer division. -/
def ratFloor (x : ℚ) : ℤ := x.num.fdiv (x.den : ℤ)

/-- Round to the nearest integer, ties to even: the rounding performed by the
one-decimal string format on the (binary-exact) values the planner produces. -/
def roundHalfEven (x : ℚ) : ℤ :=
  let n := ratFloor x
  let f := x - (n : ℚ)
  if f < 1 / 2 then n
  else if 1 / 2 < f then n + 1
  else if n % 2 = 0 then n else n + 1

/-- Round to one decimal place, as the `%.1f` format applied when a task string
is built. -/
def roundTenth (x : ℚ) : ℚ := (roundHalfEven (10 * x) : ℚ) / 10

/-- Substring test on strings: models the Python `needle in haystack` check. -/
def strContains (needle hay : String) : Bool :=
  (List.range (hay.data.length + 1)).any fun i => needle.data.isPrefixOf (hay.data.drop i)

/-- Half-open clock-time interval, in minutes since midnight. -/
structure Interval where
  start : ℕ
  stop : ℕ
deriving DecidableEq, Repr

/-- The six published prayer times (6:12, 7:25, 13:19, 16:41, 19:12, 20:27),
each blocked for ten minutes. -/
def prayerIntervals : List Interval :=
  [⟨372, 382⟩, ⟨445, 455⟩, ⟨799, 809⟩, ⟨1001, 1011⟩, ⟨1152, 1162⟩, ⟨1227, 1237⟩]

/-- Lunch 12:00-13:00, dinner 18:30-19:30, snacks 10:30-10:45 and 15:30-15:45. -/
def breakIntervals : List Interval :=
  [⟨720, 780⟩, ⟨1110, 1170⟩, ⟨630, 645⟩, ⟨930, 945⟩]

/-- Half-open interval overlap as the spec words it: the intervals intersect
exactly when neither ends at or before the other starts. -/
def intersects (a b : Interval) : Prop := ¬(a.stop ≤ b.start ∨ b.stop ≤ a.start)

instance (a b : Interval) : Decidable (intersects a b) := by
  unfold intersects; infer_instance

/-- Boolean overlap test used inside `is_time_conflict`:
`not (slot_end <= blocked_start or slot_start >= blocked_end)`. -/
def overlapsB (slot blocked : Interval) : Bool :=
  !(decide (slot.stop ≤ blocked.start) || decide (blocked.stop ≤ slot.start))

/-- `is_time_conflict`: the candidate slot overlaps some prayer window or some
break window. -/
def isTimeConflict (slot : Interval) : Bool :=
  (prayerIntervals.any fun b => overlapsB slot b) ||
    (breakIntervals.any fun b => overlapsB slot b)

/-- One atomic 30-minute slot of `assign_study_times`: its start minute, its
availability flag, and the subject assigned to it (if any). -/
structure Slot where
  start : ℕ
  available : Bool
  task : Option String
deriving DecidableEq, Repr

/-- The half-open 30-minute interval a slot occupies. -/
def slotIv (s : Slot) : Interval := ⟨s.start, s.start + 30⟩

/-- Cut one preferred window into 30-minute atomic slots and drop the ones that
conflict with a prayer or break window.  The slot count is
`int(duration * 2)` in the source, i.e. the window length in minutes divided by
30, truncated. -/
def windowSlots (w : Interval) : List Slot :=
  ((List.range ((w.stop - w.start) / 30)).map fun i =>
      Slot.mk (w.start + 30 * i) true none).filter fun s => !isTimeConflict (slotIv s)

/-- The day's available slot sequence: the windows expanded in order. -/
def buildSlots (windows : List Interval) : List Slot :=
  windows.flatMap windowSlots

/-- One task allocation as recorded in the plan: subject name, the hour figure
carried by the task string (already rounded to one decimal by the format), and
whether it is a supplemental "(+H.Hh)" session. -/
structure TaskEntry where
  name : String
  hours : ℚ
  extra : Bool
deriving DecidableEq, Repr

/-- The one-decimal hour figure as printed, e.g. "0.8" or "1.0". -/
def renderHours (q : ℚ) : String :=
  toString (ratFloor q) ++ "." ++ toString (ratFloor (10 * q) - 10 * ratFloor q)

/-- The task string stored in a day plan: "Name (H.Hh)" or "Name (+H.Hh)". -/
def renderTask (t : TaskEntry) : String :=
  t.name ++ (if t.extra then " (+" else " (") ++ renderHours t.hours ++ "h)"

/-- `int(task_hours * 2)`: the number of atomic slots a task needs.  Committed
tasks always have at least half an hour, so this is at least one. -/
def slotsNeeded (hours : ℚ) : ℕ := (ratFloor (2 * hours)).toNat

/-- Whether the next `needed` slots of the sequence exist and are all still
available. -/
def windowFree (needed : ℕ) (l : List Slot) : Bool :=
  decide (needed ≤ l.length) && (l.take needed).all (·.available)

/-- The source scans the slot sequence left to right counting consecutive
available slots and stops at the first run of length `needed`; for the
committed tasks (which always need at least one slot) that run starts at the
first position whose next `needed` slots are all available, which is what this
recursion computes (as an offset into the given suffix of the sequence). -/
def firstWindow (needed : ℕ) : List Slot → Option ℕ
  | [] => if windowFree needed [] then some 0 else none
  | x :: rest =>
    if windowFree needed (x :: rest) then some 0
    else (firstWindow needed rest).map (· + 1)

/-- Claim a run of slots: positions `start ≤ i < start + needed` get the task's
subject and become unavailable. -/
def claimSlots (slots : List Slot) (start needed : ℕ) (name : String) : List Slot :=
  slots.mapIdx fun i s =>
    if start ≤ i ∧ i < start + needed then { s with available := false, task := some name }
    else s

/-- Descending order on allocated hours; `list.sort(reverse=True)` is a stable
descending sort, which `insertionSort` with this relation reproduces. -/
def taskGE (a b : TaskEntry) : Prop := b.hours ≤ a.hours

instance : DecidableRel taskGE := fun a b => by unfold taskGE; infer_instance

/-- The cursor creep of the assignment while-loop: on each iteration, if the
cursor has reached the end of the slot sequence the loop exits; otherwise the
left-to-right scan from the cursor either finds the first run of the needed
size (returning its absolute start) or the cursor advances by one and the same
task is retried.  The countdown `k` is the number of cursor positions left,
`slots.length - slotIdx`. -/
def seekFrom (slots : List Slot) (needed : ℕ) : ℕ → ℕ → Option ℕ
  | _, 0 => none
  | slotIdx, k + 1 =>
    match firstWindow needed (slots.drop slotIdx) with
    | some w => some (slotIdx + w)
    | none => seekFrom slots needed (slotIdx + 1) k

/-- The task-to-slot assignment loop of `assign_study_times`: tasks are taken
in order; the current task seeks (with cursor creep) a run of its needed size;
on success the run is claimed and the cursor moves just past it; when the
cursor reaches the end of the sequence the while-loop exits, leaving all
remaining tasks without slots.  Committed tasks always need at least one slot
(the minimum session is at least half an hour), so the zero-slot scan corner of
the source is never reached. -/
def assignAux : List Slot → List TaskEntry → ℕ → List Slot
  | slots, [], _ => slots
  | slots, t :: rest, slotIdx =>
    match seekFrom slots (slotsNeeded t.hours) slotIdx (slots.length - slotIdx) with
    | some s =>
      assignAux (claimSlots slots s (slotsNeeded t.hours) t.name) rest (s + slotsNeeded t.hours)
    | none => slots

/-- `assign_study_times`: build the conflict-free slot sequence from the
preferred windows, sort the tasks by hours descending, run the assignment
loop, and return only the slots that received a task. -/
def assignStudyTimes (tasks : List TaskEntry) (windows : List Interval) : List Slot :=
  if windows = [] then []
  else
    let slots := buildSlots windows
    if slots = [] then []
    else (assignAux slots (tasks.insertionSort taskGE) 0).filter fun s => s.task.isSome

/-- Spec-side assignment loop for the amended claim: tasks are processed in
order, each claiming the first run of its needed size at or after the cursor;
the first task for which no such run exists ends the assignment, so it and all
later tasks receive no slots. -/
def claimAssignAux (slots : List Slot) (tasks : List TaskEntry) (cursor : ℕ) : List Slot :=
  match tasks with
  | [] => slots
  | t :: rest =>
    match firstWindow (slotsNeeded t.hours) (slots.drop cursor) with
    | some w =>
      claimAssignAux (claimSlots slots (cursor + w) (slotsNeeded t.hours) t.name) rest
        (cursor + w + slotsNeeded t.hours)
    | none => slots

/-- Spec-side counterpart of `assignStudyTimes` built on `claimAssignAux`. -/
def claimAssignTimes (tasks : List TaskEntry) (windows : List Interval) : List Slot :=
  if windows = [] then []
  else
    let slots := buildSlots windows
    if slots = [] then []
    else (claimAssignAux slots (tasks.insertionSort taskGE) 0).filter fun s => s.task.isSome

/-- The eight selectable two-hour preferred windows offered by the sidebar. -/
def timeSlotOptions : List Interval :=
  [⟨360, 480⟩, ⟨480, 600⟩, ⟨600, 720⟩, ⟨720, 840⟩, ⟨840, 960⟩, ⟨960, 1080⟩,
    ⟨1080, 1200⟩, ⟨1200, 1320⟩]

/-- Subject difficulty. -/
inductive Difficulty where
  | easy
  | medium
  | hard
deriving DecidableEq, Repr

/-- Priority weight derived 1:1 from difficulty: Easy=1, Medium=2, Hard=3. -/
def Difficulty.priority : Difficulty → ℕ
  | .easy => 1
  | .medium => 2
  | .hard => 3

/-- A subject record: name, deadline (as an absolute day number), difficulty,
and weekly hours needed. -/
structure Subject where
  name : String
  deadlineDay : ℤ
  difficulty : Difficulty
  hoursNeeded : ℚ
deriving DecidableEq, Repr

/-- The "now" used by the ranking: its calendar day number, and whether the
time of day is past midnight (the deadline is parsed to midnight, so
`(deadline - now).days` is the day difference minus one whenever the current
time has a nonzero time-of-day component, by floor semantics of
`timedelta.days`). -/
structure Today where
  day : ℤ
  fracPos : Bool
deriving DecidableEq, Repr

/-- The signed `(deadline - now).days` value used as primary sort key. -/
def signedDays (s : Subject) (t : Today) : ℤ :=
  s.deadlineDay - t.day - (if t.fracPos then 1 else 0)

/-- The total preorder of the subject ranking: ascending signed day count, ties
broken by ascending negated priority (i.e. descending priority) — the
lexicographic order on the sort key `(days, -priority)`. -/
def rankRel (t : Today) (a b : Subject) : Prop :=
  signedDays a t < signedDays b t ∨
    (signedDays a t = signedDays b t ∧
      -(a.difficulty.priority : ℤ) ≤ -(b.difficulty.priority : ℤ))

instance (t : Today) : DecidableRel (rankRel t) := fun a b => by unfold rankRel; infer_instance

/-- `sorted(subjects, key=lambda x: (days, -priority))`: a stable sort by the
lexicographic key. -/
def rankSubjects (subjects : List Subject) (t : Today) : List Subject :=
  subjects.insertionSort (rankRel t)

/-- The availability settings of a planning run. -/
structure Config where
  selectedDays : List String
  studyHours : ℚ
  maxSubjectsPerDay : ℕ
  minSessionHours : ℚ
  preferredTimes : List Interval
deriving DecidableEq, Repr

/-- The `remaining_hours` dictionary, as a total map (later duplicates
overwrite earlier ones, as in a dict comprehension). -/
def initRem (subjects : List Subject) : String → ℚ :=
  subjects.foldl (fun f s => fun n => if n = s.name then s.hoursNeeded else f n) fun _ => 0

/-- State of the per-day allocation loop: the day's committed tasks, the exact
hours used so far today, and the remaining-hours map. -/
structure AllocState where
  tasks : List TaskEntry
  used : ℚ
  rem : String → ℚ

/-- One iteration of the main allocation loop for one subject on one day, with
the day's subject bound `bound = min(max_subjects_per_day, len(sorted_subjects))`
precomputed by the caller.  The committed task string records the candidate
rounded to one decimal; the accounting uses the exact candidate. -/
def allocStep (cfg : Config) (bound : ℕ) (st : AllocState) (s : Subject) : AllocState :=
  if 0 < st.rem s.name ∧ st.tasks.length < bound then
    let cap := min (cfg.studyHours - st.used)
      (min (st.rem s.name) (max cfg.minSessionHours ((s.difficulty.priority : ℚ) * (3 / 4))))
    if cfg.minSessionHours ≤ cap then
      ⟨st.tasks ++ [⟨s.name, roundTenth cap, false⟩], st.used + cap,
        fun n => if n = s.name then st.rem s.name - cap else st.rem n⟩
    else st
  else st

/-- The main allocation pass for one day: fold the ranked subjects from an
empty day. -/
def allocDay (cfg : Config) (bound : ℕ) (subjects : List Subject) (rem : String → ℚ) :
    AllocState :=
  subjects.foldl (allocStep cfg bound) ⟨[], 0, rem⟩

/-- Spec-side allocation step for the amended claim: identical to `allocStep`
except that the task-count guard compares against `maxSubjectsPerDay` itself. -/
def claimAllocStep (cfg : Config) (st : AllocState) (s : Subject) : AllocState :=
  if 0 < st.rem s.name ∧ st.tasks.length < cfg.maxSubjectsPerDay then
    let cap := min (cfg.studyHours - st.used)
      (min (st.rem s.name) (max cfg.minSessionHours ((s.difficulty.priority : ℚ) * (3 / 4))))
    if cfg.minSessionHours ≤ cap then
      ⟨st.tasks ++ [⟨s.name, roundTenth cap, false⟩], st.used + cap,
        fun n => if n = s.name then st.rem s.name - cap else st.rem n⟩
    else st
  else st

/-- Spec-side per-day allocation for the amended claim. -/
def claimAllocDay (cfg : Config) (subjects : List Subject) (rem : String → ℚ) : AllocState :=
  subjects.foldl (claimAllocStep cfg) ⟨[], 0, rem⟩

/-- One day of the weekly plan: its label, its ordered task list, and its
ordered time slots. -/
structure DayPlan where
  day : String
  tasks : List TaskEntry
  slots : List Slot
deriving DecidableEq, Repr

/-- The label "Day N: Weekday".  The selectable weekday names contain no
": ", so the source's clean-up split leaves them unchanged. -/
def dayLabel (n : ℕ) (name : String) : String := "Day " ++ toString n ++ ": " ++ name

/-- State threaded through the per-day generation loop. -/
structure GenState where
  plan : List DayPlan
  rem : String → ℚ
  dayNumber : ℕ

/-- Process one selected day: run the main allocation pass; if it committed any
task, assign time slots (when preferred windows exist) and append the day to
the plan, incrementing the day counter; a day with no tasks is not added. -/
def processDay (cfg : Config) (ranked : List Subject) (st : GenState) (dayName : String) :
    GenState :=
  let a := allocDay cfg (min cfg.maxSubjectsPerDay ranked.length) ranked st.rem
  if a.tasks = [] then { st with rem := a.rem }
  else
    let slots := if cfg.preferredTimes = [] then [] else assignStudyTimes a.tasks cfg.preferredTimes
    { plan := st.plan ++ [⟨dayLabel st.dayNumber dayName, a.tasks, slots⟩], rem := a.rem,
      dayNumber := st.dayNumber + 1 }

/-- The whole main pass over the selected days, before any redistribution. -/
def mainPass (subjects : List Subject) (cfg : Config) (t : Today) : GenState :=
  cfg.selectedDays.foldl (processDay cfg (rankSubjects subjects t)) ⟨[], initRem subjects, 1⟩

/-- The recorded hour total of a day, i.e. the sum the source recovers by
parsing the task strings back. -/
def daySum (d : DayPlan) : ℚ := (d.tasks.map (·.hours)).sum

/-- State of the redistribution sweep inside one day: the day's (growing) task
list, the day's remaining capacity, and the remaining-hours map. -/
structure RedistState where
  tasks : List TaskEntry
  rdc : ℚ
  rem : String → ℚ

/-- One redistribution step for one subject name on one day: if the subject
still has hours left and the day still has at least the minimum session spare,
and the day's rendered task list contains the subject name (a substring test)
and the day is under the subject cap, append a supplemental session of
`min(remaining_day_capacity, hours_left, min_session_hours * 2)` (recorded
rounded to one decimal) and decrement the exact amount. -/
def redistStep (cfg : Config) (st : RedistState) (name : String) : RedistState :=
  if 0 < st.rem name ∧ cfg.minSessionHours ≤ st.rdc then
    if (st.tasks.any fun tk => strContains name (renderTask tk)) ∧
        st.tasks.length < cfg.maxSubjectsPerDay then
      let add := min st.rdc (min (st.rem name) (cfg.minSessionHours * 2))
      ⟨st.tasks ++ [⟨name, roundTenth add, true⟩], st.rdc - add,
        fun n => if n = name then st.rem name - add else st.rem n⟩
    else st
  else st

/-- The redistribution sweep over one day: only a day whose parsed spare
capacity strictly exceeds the minimum session length is scanned at all. -/
def redistDay (cfg : Config) (names : List String) (d : DayPlan) (rem : String → ℚ) :
    DayPlan × (String → ℚ) :=
  if d.tasks = [] then (d, rem)
  else
    let rdc := cfg.studyHours - daySum d
    if cfg.minSessionHours < rdc then
      let st := names.foldl (redistStep cfg) ⟨d.tasks, rdc, rem⟩
      ({ d with tasks := st.tasks }, st.rem)
    else (d, rem)

/-- The single redistribution sweep over the whole plan, threading the
remaining-hours map through the days. -/
def redistribute (cfg : Config) (names : List String) (plan : List DayPlan)
    (rem : String → ℚ) : List DayPlan × (String → ℚ) :=
  plan.foldl (fun acc d =>
    let p := redistDay cfg names d acc.2
    (acc.1 ++ [p.1], p.2)) ([], rem)

/-- Spec-side redistribution step for the amended claim, with the four
conditions stated as one flat conjunction. -/
def claimRedistStep (cfg : Config) (st : RedistState) (name : String) : RedistState :=
  if 0 < st.rem name ∧ cfg.minSessionHours ≤ st.rdc ∧
      (st.tasks.any fun tk => strContains name (renderTask tk)) ∧
      st.tasks.length < cfg.maxSubjectsPerDay then
    let add := min st.rdc (min (st.rem name) (cfg.minSessionHours * 2))
    ⟨st.tasks ++ [⟨name, roundTenth add, true⟩], st.rdc - add,
      fun n => if n = name then st.rem name - add else st.rem n⟩
  else st

/-- Spec-side per-day redistribution for the amended claim: the day is scanned
exactly when it has tasks and its spare capacity strictly exceeds the minimum
session length. -/
def claimRedistDay (cfg : Config) (names : List String) (d : DayPlan) (rem : String → ℚ) :
    DayPlan × (String → ℚ) :=
  if d.tasks ≠ [] ∧ cfg.minSessionHours < cfg.studyHours - daySum d then
    let st := names.foldl (claimRedistStep cfg) ⟨d.tasks, cfg.studyHours - daySum d, rem⟩
    ({ d with tasks := st.tasks }, st.rem)
  else (d, rem)

/-- `generatePlan`: rank the subjects, run the main pass over the selected
days, and, if any subject still has remaining hours, run the single
redistribution sweep. -/
def generatePlan (subjects : List Subject) (cfg : Config) (t : Today) : List DayPlan :=
  let g := mainPass subjects cfg t
  if subjects.any fun s => decide (0 < g.rem s.name) then
    (redistribute cfg (subjects.map (·.name)) g.plan g.rem).1
  else g.plan

/-- Value-level `repairPlan`: find the missed day (`NotFound`, i.e. `none`,
when the label matches nothing), drop every matching day, and append the
missed day's tasks, in order, to the first remaining day. -/
def repairPlan (plan : List DayPlan) (label : String) : Option (List DayPlan) :=
  match plan.find? fun d => d.day = label with
  | none => none
  | some m =>
    let adjusted := plan.filter fun d => decide ¬(d.day = label)
    match adjusted with
    | [] => some []
    | a :: rest => some ({ a with tasks := a.tasks ++ m.tasks } :: rest)

/-- Total number of task allocations across all days of a plan. -/
def totalTasks (plan : List DayPlan) : ℕ := (plan.map fun d => d.tasks.length).sum

/-- `summarizeLoad`: total recorded hours per subject across the plan, keyed by
first occurrence. -/
def addTotal (acc : List (String × ℚ)) (name : String) (hours : ℚ) : List (String × ℚ) :=
  if acc.any fun p => p.1 = name then
    acc.map fun p => if p.1 = name then (p.1, p.2 + hours) else p
  else acc ++ [(name, hours)]

/-- The weekly load summary computed from a plan's task entries. -/
def summarizeLoad (plan : List DayPlan) : List (String × ℚ) :=
  plan.foldl (fun acc d => d.tasks.foldl (fun acc2 t => addTotal acc2 t.name t.hours) acc) []

/-- The default day plan returned when an index is out of range; never reached
by the modelled runs. -/
def defaultDay : DayPlan := ⟨"", [], []⟩

/-- The session state around a repair call, modelling Python object sharing:
a heap of day-plan objects, and the current plan and the baseline plan as
lists of references into that heap.  `plan.copy()` copies the reference list
only, so after generation both lists reference the same objects. -/
structure PlanStore where
  store : List DayPlan
  studyPlan : List ℕ
  originalPlan : List ℕ
deriving DecidableEq, Repr

/-- Read a plan (a list of references) through the heap. -/
def viewPlan (store : List DayPlan) (idxs : List ℕ) : List DayPlan :=
  idxs.map fun i => store.getD i defaultDay

/-- The repair handler as executed: locate the missed day among the baseline's
references, build the adjusted reference list, and append the missed day's
tasks in place to the day object the first adjusted reference points to —
an object also referenced by the baseline. -/
def repairStore (ps : PlanStore) (label : String) : PlanStore :=
  match ps.originalPlan.find? fun i => (ps.store.getD i defaultDay).day = label with
  | none => ps
  | some m =>
    let adjusted := ps.originalPlan.filter fun i =>
      decide ¬((ps.store.getD i defaultDay).day = label)
    match adjusted with
    | [] => { ps with studyPlan := [] }
    | a :: _ =>
      let tgt := ps.store.getD a defaultDay
      { store := ps.store.set a { tgt with tasks := tgt.tasks ++ (ps.store.getD m defaultDay).tasks },
        studyPlan := adjusted, originalPlan := ps.originalPlan }

/-- The ambient session state read and written by a generation run. -/
structure SessionState where
  subjects : List Subject
  selectedDays : List String
  studyHours : ℚ
  maxSubjectsPerDay : ℕ
  minSessionHours : ℚ
  preferredTimes : List Interval
  studyPlan : List DayPlan
  originalPlan : List DayPlan

/-- The availability configuration a generation run reads from the session. -/
def configOf (s : SessionState) : Config :=
  ⟨s.selectedDays, s.studyHours, s.maxSubjectsPerDay, s.minSessionHours, s.preferredTimes⟩

/-- A generation run: compute the plan from the subject snapshot, the
availability settings and today's date, and store it as both the current and
the baseline plan. -/
def generateRun (s : SessionState) (t : Today) : SessionState :=
  let plan := generatePlan s.subjects (configOf s) t
  { s with studyPlan := plan, originalPlan := plan }

end StudyPlanner

namespace StudyPlanner

/-! Theorems.  Helper lemmas come first; the claim theorems follow. -/

/-- C1: the claim says a repair call leaves the baseline (original) plan
unchanged, so that a later load summary over it sees the pre-repair tasks.
The code violates this: `plan.copy()` is a shallow copy, so the repair's
in-place append to the first remaining day mutates a day object the baseline
also references.  On a concrete two-day plan, repairing "Day 2: Tuesday"
changes the baseline's first day from one task to two, and the load summary
over the baseline then counts subject "B" twice. -/
theorem C1_repair_mutates_baseline :
    (viewPlan (repairStore ⟨[⟨"Day 1: Monday", [⟨"A", 1, false⟩], []⟩,
        ⟨"Day 2: Tuesday", [⟨"B", 1, false⟩], []⟩], [0, 1], [0, 1]⟩ "Day 2: Tuesday").store
      (repairStore ⟨[⟨"Day 1: Monday", [⟨"A", 1, false⟩], []⟩,
        ⟨"Day 2: Tuesday", [⟨"B", 1, false⟩], []⟩], [0, 1], [0, 1]⟩ "Day 2: Tuesday").originalPlan ≠
      viewPlan [⟨"Day 1: Monday", [⟨"A", 1, false⟩], []⟩,
        ⟨"Day 2: Tuesday", [⟨"B", 1, false⟩], []⟩] [0, 1]) ∧
    summarizeLoad (viewPlan (repairStore ⟨[⟨"Day 1: Monday", [⟨"A", 1, false⟩], []⟩,
        ⟨"Day 2: Tuesday", [⟨"B", 1, false⟩], []⟩], [0, 1], [0, 1]⟩ "Day 2: Tuesday").store
      (repairStore ⟨[⟨"Day 1: Monday", [⟨"A", 1, false⟩], []⟩,
        ⟨"Day 2: Tuesday", [⟨"B", 1, false⟩], []⟩], [0, 1], [0, 1]⟩ "Day 2: Tuesday").originalPlan) =
      [("A", 1), ("B", 2)] ∧
    summarizeLoad (viewPlan [⟨"Day 1: Monday", [⟨"A", 1, false⟩], []⟩,
        ⟨"Day 2: Tuesday", [⟨"B", 1, false⟩], []⟩] [0, 1]) = [("A", 1), ("B", 1)] := by
  with_unfolding_all decide

/-- C3: the claim states that every freshly generated day's recorded task
hours sum to at most the daily capacity (within floating-point tolerance).
With capacity 1.5h, minimum session 0.5h and two Easy subjects needing 2h
each, the main pass commits two exact 0.75h sessions but records each task
string as "0.8h", so the day's recorded total is 1.6h, exceeding the 1.5h
capacity by 0.1h — far beyond floating-point tolerance, and contradicting the
program's own displayed promise that no day exceeds the daily limit. -/
theorem C3_capacity_exceeded :
    generatePlan [⟨"A", 10, .easy, 2⟩, ⟨"B", 20, .easy, 2⟩] ⟨["Monday"], 3 / 2, 5, 1 / 2, []⟩
        ⟨0, true⟩ =
      [⟨"Day 1: Monday", [⟨"A", 4 / 5, false⟩, ⟨"B", 4 / 5, false⟩], []⟩] ∧
    daySum ⟨"Day 1: Monday", [⟨"A", 4 / 5, false⟩, ⟨"B", 4 / 5, false⟩], []⟩ = 8 / 5 ∧
    (3 / 2 : ℚ) < 8 / 5 := by
  with_unfolding_all decide

/-- C2 counterexample: the claim says a TaskAllocation of exactly the
candidate amount is committed.  With capacity 2h, minimum session 0.5h and one
Easy subject needing 1h, the candidate is
min(2 − 0, 1, max(0.5, 1 × 0.75)) = 0.75, but the committed task records
0.8 (the one-decimal string figure), not 0.75. -/
theorem C2_counterexample :
    (allocDay ⟨["Monday"], 2, 5, 1 / 2, []⟩ 1 [⟨"A", 10, .easy, 1⟩]
        (initRem [⟨"A", 10, .easy, 1⟩])).tasks = [⟨"A", 4 / 5, false⟩] ∧
    min ((2 : ℚ) - 0) (min 1 (max (1 / 2) ((Difficulty.easy.priority : ℚ) * (3 / 4)))) = 3 / 4 ∧
    (4 / 5 : ℚ) ≠ 3 / 4 := by
  with_unfolding_all decide

/-- C4 counterexample: the claim says every task in the day's list is
processed, a task receiving no slots only when no run of its size exists in
the remaining sequence.  With one two-hour window (four surviving slots), a
2.5h task (five slots) cannot be placed, and the loop then exhausts the cursor
and exits, so the 0.5h task receives no slots either — even though a run of
one free slot exists in the untouched sequence (`firstWindow` finds it at
position 0). -/
theorem C4_counterexample :
    assignStudyTimes [⟨"A", 5 / 2, false⟩, ⟨"B", 1 / 2, false⟩] [⟨480, 600⟩] = [] ∧
    firstWindow (slotsNeeded (1 / 2)) (buildSlots [⟨480, 600⟩]) = some 0 ∧
    slotsNeeded (5 / 2) = 5 ∧ (buildSlots [⟨480, 600⟩]).length = 4 := by
  with_unfolding_all decide

/-- C8 counterexample, two scenarios.  First: with capacity 2h, minimum
session 1h and one Easy subject needing 5h, the day holds one 1h task, the
subject has 4h remaining, and the day's spare capacity equals the minimum
session exactly — the claim ("spare ≥ minSessionHours") demands a supplemental
session, but the code's strict `>` day gate appends none.  Second: with
capacity 2h, minimum session 0.5h and one Easy subject needing 1h, a
supplemental session is appended but records 0.2h, not the claimed exact
min(spare, remaining, 2 × minSession) = min(1.2, 0.25, 1) = 0.25. -/
theorem C8_counterexample :
    (generatePlan [⟨"A", 10, .easy, 5⟩] ⟨["Monday"], 2, 5, 1, []⟩ ⟨0, true⟩ =
        [⟨"Day 1: Monday", [⟨"A", 1, false⟩], []⟩] ∧
      (mainPass [⟨"A", 10, .easy, 5⟩] ⟨["Monday"], 2, 5, 1, []⟩ ⟨0, true⟩).rem "A" = 4 ∧
      (2 : ℚ) - daySum ⟨"Day 1: Monday", [⟨"A", 1, false⟩], []⟩ = 1) ∧
    (generatePlan [⟨"A", 10, .easy, 1⟩] ⟨["Monday"], 2, 5, 1 / 2, []⟩ ⟨0, true⟩ =
        [⟨"Day 1: Monday", [⟨"A", 4 / 5, false⟩, ⟨"A", 1 / 5, true⟩], []⟩] ∧
      min ((2 : ℚ) - 4 / 5) (min (1 / 4) ((1 / 2 : ℚ) * 2)) = 1 / 4 ∧
      (1 / 5 : ℚ) ≠ 1 / 4) := by
  with_unfolding_all decide

/-- C9: a generation run is a function of the subject snapshot, the
availability settings and today's date only; two runs over session states that
agree on those inputs produce the same plan (and the same stored baseline),
whatever other state — such as previously stored plans — differs. -/
theorem C9_generate_deterministic (s1 s2 : SessionState) (t : Today)
    (h1 : s1.subjects = s2.subjects) (h2 : s1.selectedDays = s2.selectedDays)
    (h3 : s1.studyHours = s2.studyHours) (h4 : s1.maxSubjectsPerDay = s2.maxSubjectsPerDay)
    (h5 : s1.minSessionHours = s2.minSessionHours) (h6 : s1.preferredTimes = s2.preferredTimes) :
    (generateRun s1 t).studyPlan = (generateRun s2 t).studyPlan ∧
      (generateRun s1 t).originalPlan = (generateRun s2 t).originalPlan := by
  refine ⟨?_, ?_⟩ <;> simp only [generateRun, configOf, h1, h2, h3, h4, h5, h6]

/-- Witness for C9 at concrete states that differ in their previously stored
plans but agree on all generation inputs. -/
theorem C9_witness :
    (generateRun ⟨[⟨"A", 10, .easy, 2⟩], ["Monday"], 2, 5, 1, [], [defaultDay], [defaultDay]⟩
        ⟨0, true⟩).studyPlan =
      (generateRun ⟨[⟨"A", 10, .easy, 2⟩], ["Monday"], 2, 5, 1, [], [], []⟩ ⟨0, true⟩).studyPlan ∧
    (generateRun ⟨[⟨"A", 10, .easy, 2⟩], ["Monday"], 2, 5, 1, [], [defaultDay], [defaultDay]⟩
        ⟨0, true⟩).originalPlan =
      (generateRun ⟨[⟨"A", 10, .easy, 2⟩], ["Monday"], 2, 5, 1, [], [], []⟩ ⟨0, true⟩).originalPlan :=
  C9_generate_deterministic _ _ _ rfl rfl rfl rfl rfl rfl

end StudyPlanner

namespace StudyPlanner

theorem claimAllocStep_length (cfg : Config) (st : AllocState) (s : Subject) :
    (claimAllocStep cfg st s).tasks.length ≤ st.tasks.length + 1 := by
  unfold claimAllocStep
  split
  · dsimp only
    split <;> simp
  · simp

theorem allocStep_eq_claim (cfg : Config) (n : ℕ) (st : AllocState) (s : Subject)
    (h : st.tasks.length < n) :
    allocStep cfg (min cfg.maxSubjectsPerDay n) st s = claimAllocStep cfg st s := by
  unfold allocStep claimAllocStep
  have e : (0 < st.rem s.name ∧ st.tasks.length < min cfg.maxSubjectsPerDay n) ↔
      (0 < st.rem s.name ∧ st.tasks.length < cfg.maxSubjectsPerDay) := by
    constructor
    · rintro ⟨h1, h2⟩; exact ⟨h1, lt_of_lt_of_le h2 (min_le_left _ _)⟩
    · rintro ⟨h1, h2⟩; exact ⟨h1, lt_min h2 h⟩
  exact if_congr e rfl rfl

theorem allocFold_eq_claim (cfg : Config) (n : ℕ) :
    ∀ (l : List Subject) (st : AllocState), st.tasks.length + l.length ≤ n →
      l.foldl (allocStep cfg (min cfg.maxSubjectsPerDay n)) st = l.foldl (claimAllocStep cfg) st
  | [], _, _ => rfl
  | s :: rest, st, h => by
    simp only [List.foldl_cons]
    rw [allocStep_eq_claim cfg n st s (by simp only [List.length_cons] at h; omega)]
    exact allocFold_eq_claim cfg n rest _ (by
      have hl := claimAllocStep_length cfg st s
      simp only [List.length_cons] at h
      omega)

/-- C2 (amended): in the main allocation pass each subject is considered once
per day from an initially empty day, so the source's task-count guard
`len(tasks) < min(maxSubjectsPerDay, len(subjects))` is equivalent to the
claim's plain `len(tasks) < maxSubjectsPerDay`; the candidate is
`min(dailyCapacityHours − usedHours, remainingHours[subject],
max(minSessionHours, priorityWeight × 0.75))`, and exactly when the candidate
is at least `minSessionHours` a task recording the candidate rounded to one
decimal place is committed while `remainingHours` and `usedHours` are adjusted
by the exact candidate; otherwise the subject is skipped for that day. -/
theorem C2_amended_alloc (cfg : Config) (subjects : List Subject) (rem : String → ℚ) :
    allocDay cfg (min cfg.maxSubjectsPerDay subjects.length) subjects rem =
      claimAllocDay cfg subjects rem :=
  allocFold_eq_claim cfg subjects.length subjects ⟨[], 0, rem⟩ (by simp)

theorem redistStep_eq_claim (cfg : Config) (st : RedistState) (name : String) :
    redistStep cfg st name = claimRedistStep cfg st name := by
  unfold redistStep claimRedistStep
  by_cases h1 : 0 < st.rem name ∧ cfg.minSessionHours ≤ st.rdc
  · rw [if_pos h1]
    by_cases h2 : ((st.tasks.any fun tk => strContains name (renderTask tk)) = true) ∧
        st.tasks.length < cfg.maxSubjectsPerDay
    · rw [if_pos h2, if_pos ⟨h1.1, h1.2, h2.1, h2.2⟩]
    · rw [if_neg h2, if_neg fun hc => h2 ⟨hc.2.2.1, hc.2.2.2⟩]
  · rw [if_neg h1, if_neg fun hc => h1 ⟨hc.1, hc.2.1⟩]

/-- C8 (amended): the single remediation sweep scans a day only when the day
has tasks and its spare capacity (daily capacity minus the day's recorded
hours) strictly exceeds `minSessionHours`; within a scanned day, for every
subject in snapshot order, a supplemental session is appended exactly when the
subject has remaining hours, the running spare capacity is at least
`minSessionHours`, the day's rendered task list contains the subject name (a
substring test) and the day is under `maxSubjectsPerDay`; the appended entry
records `min(spareCapacity, remainingHours, 2 × minSessionHours)` rounded to
one decimal, while the spare capacity and the remaining hours are decremented
by the exact amount; hours still remaining afterwards stay unscheduled. -/
theorem C8_amended_redistribution (cfg : Config) (names : List String) (d : DayPlan)
    (rem : String → ℚ) :
    redistDay cfg names d rem = claimRedistDay cfg names d rem := by
  have hstep : redistStep cfg = claimRedistStep cfg :=
    funext fun st => funext fun name => redistStep_eq_claim cfg st name
  unfold redistDay claimRedistDay
  by_cases h1 : d.tasks = []
  · rw [if_pos h1, if_neg fun hc => hc.1 h1]
  · rw [if_neg h1]
    by_cases h2 : cfg.minSessionHours < cfg.studyHours - daySum d
    · rw [if_pos h2, if_pos ⟨h1, h2⟩, hstep]
    · rw [if_neg h2, if_neg fun hc => h2 hc.2]

/-- C6: the ranked subject order is sorted by the total preorder "ascending
signed `(deadline − today).days`, ties broken by descending priority weight",
it is a permutation of the snapshot, and consequently no subject with a future
deadline ever precedes a subject whose deadline is already past; a past
deadline always yields a negative signed day count and a future deadline a
non-negative one. -/
theorem C6_ranking_order (subjects : List Subject) (t : Today) :
    (rankSubjects subjects t).Pairwise (rankRel t) ∧
    (rankSubjects subjects t).Perm subjects ∧
    (rankSubjects subjects t).Pairwise
      (fun a b => t.day < a.deadlineDay → ¬b.deadlineDay < t.day) ∧
    (∀ s : Subject, s.deadlineDay < t.day → signedDays s t < 0) ∧
    (∀ s : Subject, t.day < s.deadlineDay → 0 ≤ signedDays s t) := by
  have hneg : ∀ s : Subject, s.deadlineDay < t.day → signedDays s t < 0 := by
    intro s h; unfold signedDays; split <;> omega
  have hpos : ∀ s : Subject, t.day < s.deadlineDay → 0 ≤ signedDays s t := by
    intro s h; unfold signedDays; split <;> omega
  have hs : (rankSubjects subjects t).Pairwise (rankRel t) := by
    haveI : IsTotal Subject (rankRel t) := ⟨fun a b => by unfold rankRel; omega⟩
    haveI : IsTrans Subject (rankRel t) := ⟨fun a b c => by unfold rankRel; omega⟩
    exact List.sorted_insertionSort (rankRel t) subjects
  refine ⟨hs, List.perm_insertionSort _ _, hs.imp ?_, hneg, hpos⟩
  intro a b hab hfut hpast
  have h1 : 0 ≤ signedDays a t := hpos a hfut
  have h2 : signedDays b t < 0 := hneg b hpast
  unfold rankRel at hab
  omega

end StudyPlanner

namespace StudyPlanner

theorem totalTasks_cons (d : DayPlan) (l : List DayPlan) :
    totalTasks (d :: l) = d.tasks.length + totalTasks l := by
  simp [totalTasks]

theorem repair_locate (label : String) :
    ∀ plan : List DayPlan, (plan.map fun d => d.day).Nodup →
      label ∈ plan.map (fun d => d.day) →
      ∃ m, m ∈ plan ∧ m.day = label ∧
        (plan.find? fun d => d.day = label) = some m ∧
        (plan.filter fun d => decide ¬(d.day = label)).length + 1 = plan.length ∧
        totalTasks (plan.filter fun d => decide ¬(d.day = label)) + m.tasks.length =
          totalTasks plan
  | [], _, hmem => by simp at hmem
  | d :: rest, hnd, hmem => by
    simp only [List.map_cons, List.nodup_cons] at hnd
    by_cases hd : d.day = label
    · have hrest : ∀ e ∈ rest, ¬e.day = label := by
        intro e he heq
        exact hnd.1 (hd ▸ heq ▸ List.mem_map_of_mem (fun x => x.day) he)
      have hfil : (rest.filter fun e => decide ¬(e.day = label)) = rest :=
        List.filter_eq_self.mpr fun e he => by simpa using hrest e he
      refine ⟨d, List.mem_cons_self d rest, hd, ?_, ?_, ?_⟩
      · exact List.find?_cons_of_pos rest (by simpa using hd)
      · rw [List.filter_cons_of_neg (by simpa using hd), hfil]
        simp
      · rw [List.filter_cons_of_neg (by simpa using hd), hfil, totalTasks_cons]
        omega
    · have hmem' : label ∈ rest.map fun e => e.day := by
        simp only [List.map_cons, List.mem_cons] at hmem
        rcases hmem with h | h
        · exact absurd h.symm hd
        · exact h
      obtain ⟨m, hm, hmd, hfind, hlen, htot⟩ := repair_locate label rest hnd.2 hmem'
      refine ⟨m, List.mem_cons_of_mem d hm, hmd, ?_, ?_, ?_⟩
      · rw [List.find?_cons_of_neg rest (by simpa using hd)]
        exact hfind
      · rw [List.filter_cons_of_pos (by simpa using hd)]
        simp only [List.length_cons]
        omega
      · rw [List.filter_cons_of_pos (by simpa using hd), totalTasks_cons, totalTasks_cons]
        omega

/-- C5: with at least two days and pairwise distinct day labels, repairing a
present label removes exactly the matched day, appends every one of its task
allocations (none dropped, none duplicated, in order) to the first remaining
day, and preserves the total number of task allocations across all days. -/
theorem C5_repair_conservation (plan : List DayPlan) (label : String)
    (hlen : 2 ≤ plan.length) (hnd : (plan.map fun d => d.day).Nodup)
    (hmem : label ∈ plan.map fun d => d.day) :
    ∃ m first rest, m ∈ plan ∧ m.day = label ∧
      (plan.filter fun d => decide ¬(d.day = label)) = first :: rest ∧
      repairPlan plan label = some ({ first with tasks := first.tasks ++ m.tasks } :: rest) ∧
      totalTasks ({ first with tasks := first.tasks ++ m.tasks } :: rest) = totalTasks plan ∧
      ({ first with tasks := first.tasks ++ m.tasks } :: rest).length + 1 = plan.length := by
  obtain ⟨m, hm, hmd, hfind, hflen, htot⟩ := repair_locate label plan hnd hmem
  obtain ⟨first, rest, hfr⟩ :
      ∃ f r, (plan.filter fun d => decide ¬(d.day = label)) = f :: r := by
    cases hfl : plan.filter fun d => decide ¬(d.day = label) with
    | nil => rw [hfl] at hflen; simp at hflen; omega
    | cons f r => exact ⟨f, r, rfl⟩
  refine ⟨m, first, rest, hm, hmd, hfr, ?_, ?_, ?_⟩
  · unfold repairPlan
    rw [hfind]
    simp only [hfr]
  · rw [totalTasks_cons]
    rw [hfr, totalTasks_cons] at htot
    simp only [List.length_append]
    omega
  · rw [hfr] at hflen
    simp only [List.length_cons] at hflen ⊢
    omega

/-- Witness for C5 on a concrete two-day plan. -/
theorem C5_witness :
    ∃ m first rest,
      m ∈ [DayPlan.mk "Day 1: Monday" [⟨"A", 1, false⟩] [],
        DayPlan.mk "Day 2: Tuesday" [⟨"B", 1, false⟩] []] ∧ m.day = "Day 2: Tuesday" ∧
      ([DayPlan.mk "Day 1: Monday" [⟨"A", 1, false⟩] [],
        DayPlan.mk "Day 2: Tuesday" [⟨"B", 1, false⟩] []].filter fun d =>
          decide ¬(d.day = "Day 2: Tuesday")) = first :: rest ∧
      repairPlan [DayPlan.mk "Day 1: Monday" [⟨"A", 1, false⟩] [],
        DayPlan.mk "Day 2: Tuesday" [⟨"B", 1, false⟩] []] "Day 2: Tuesday" =
        some ({ first with tasks := first.tasks ++ m.tasks } :: rest) ∧
      totalTasks ({ first with tasks := first.tasks ++ m.tasks } :: rest) =
        totalTasks [DayPlan.mk "Day 1: Monday" [⟨"A", 1, false⟩] [],
          DayPlan.mk "Day 2: Tuesday" [⟨"B", 1, false⟩] []] ∧
      ({ first with tasks := first.tasks ++ m.tasks } :: rest).length + 1 =
        [DayPlan.mk "Day 1: Monday" [⟨"A", 1, false⟩] [],
          DayPlan.mk "Day 2: Tuesday" [⟨"B", 1, false⟩] []].length :=
  C5_repair_conservation _ "Day 2: Tuesday" (by decide) (by decide) (by decide)

end StudyPlanner

namespace StudyPlanner

theorem allocStep_cases (cfg : Config) (b : ℕ) (st : AllocState) (s : Subject) :
    allocStep cfg b st s = st ∨
      ∃ q u r, allocStep cfg b st s =
        AllocState.mk (st.tasks ++ [⟨s.name, q, false⟩]) u r ∧ st.tasks.length < b := by
  unfold allocStep
  split
  · dsimp only
    split
    · rename_i hg _
      exact Or.inr ⟨_, _, _, rfl, hg.2⟩
    · exact Or.inl rfl
  · exact Or.inl rfl

theorem allocFold_names (cfg : Config) (b : ℕ) :
    ∀ (l : List Subject) (st : AllocState),
      ((st.tasks.map fun tk => tk.name) ++ l.map fun s => s.name).Nodup →
      st.tasks.length ≤ b →
      ((((l.foldl (allocStep cfg b) st).tasks.map fun tk => tk.name).Nodup ∧
        (l.foldl (allocStep cfg b) st).tasks.length ≤ b) ∧
        (l.foldl (allocStep cfg b) st).tasks.length ≤ st.tasks.length + l.length)
  | [], st, hnd, hb => ⟨⟨by simpa using hnd, hb⟩, by simp⟩
  | s :: rest, st, hnd, hb => by
    simp only [List.foldl_cons]
    rcases allocStep_cases cfg b st s with hc | ⟨q, u, r, hc, hlt⟩
    · rw [hc]
      have hnd' : ((st.tasks.map fun tk => tk.name) ++ rest.map fun x => x.name).Nodup := by
        refine List.Nodup.sublist ?_ hnd
        exact List.Sublist.append_left (List.sublist_cons_self _ _) _
      have := allocFold_names cfg b rest st hnd' hb
      exact ⟨this.1, by have h2 := this.2; simp only [List.length_cons]; omega⟩
    · rw [hc]
      have hnd' : ((((AllocState.mk (st.tasks ++ [⟨s.name, q, false⟩]) u r).tasks.map
          fun tk => tk.name)) ++ rest.map fun x => x.name).Nodup := by
        simpa [List.append_assoc] using hnd
      have := allocFold_names cfg b rest _ hnd' (by simp only [List.length_append]; simpa using hlt)
      refine ⟨this.1, ?_⟩
      have h2 := this.2
      simp only [List.length_append, List.length_cons, List.length_nil] at h2 ⊢
      omega

theorem processDay_plan_cases (cfg : Config) (ranked : List Subject) (st : GenState)
    (dayName : String) :
    (processDay cfg ranked st dayName).plan = st.plan ∨
      ∃ slots, (processDay cfg ranked st dayName).plan =
        st.plan ++ [⟨dayLabel st.dayNumber dayName,
          (allocDay cfg (min cfg.maxSubjectsPerDay ranked.length) ranked st.rem).tasks,
          slots⟩] := by
  unfold processDay
  dsimp only
  split
  · exact Or.inl rfl
  · exact Or.inr ⟨_, rfl⟩

theorem mainPass_days (cfg : Config) (ranked : List Subject) (P : DayPlan → Prop)
    (hP : ∀ (rem : String → ℚ) (n : ℕ) (dn : String) (slots : List Slot),
      P ⟨dayLabel n dn,
        (allocDay cfg (min cfg.maxSubjectsPerDay ranked.length) ranked rem).tasks, slots⟩) :
    ∀ (days : List String) (st : GenState), (∀ d ∈ st.plan, P d) →
      ∀ d ∈ (days.foldl (processDay cfg ranked) st).plan, P d
  | [], _, h => h
  | dn :: rest, st, h => by
    simp only [List.foldl_cons]
    apply mainPass_days cfg ranked P hP rest
    rcases processDay_plan_cases cfg ranked st dn with hc | ⟨slots, hc⟩
    · intro d hd
      rw [hc] at hd
      exact h d hd
    · intro d hd
      rw [hc] at hd
      rcases List.mem_append.mp hd with hold | hnew
      · exact h d hold
      · rcases List.mem_singleton.mp hnew with rfl
        exact hP st.rem st.dayNumber dn slots

/-- C10: when subject names are pairwise distinct, every day plan built by the
main allocation pass (before the remediation sweep) considers each subject at
most once, so its task list carries pairwise distinct subject names and has
length at most `min(maxSubjectsPerDay, number of subjects)`. -/
theorem C10_day_subjects_distinct (subjects : List Subject) (cfg : Config) (t : Today)
    (hnd : (subjects.map fun s => s.name).Nodup) :
    ∀ d ∈ (mainPass subjects cfg t).plan,
      (d.tasks.map fun tk => tk.name).Nodup ∧
        d.tasks.length ≤ min cfg.maxSubjectsPerDay subjects.length := by
  have hperm : (rankSubjects subjects t).Perm subjects := List.perm_insertionSort _ _
  have hndr : ((rankSubjects subjects t).map fun s => s.name).Nodup :=
    ((hperm.map fun s => s.name).nodup_iff).mpr hnd
  have hlen : (rankSubjects subjects t).length = subjects.length := hperm.length_eq
  unfold mainPass
  apply mainPass_days cfg (rankSubjects subjects t)
  · intro rem n dn slots
    have hfold := allocFold_names cfg (min cfg.maxSubjectsPerDay (rankSubjects subjects t).length)
      (rankSubjects subjects t) ⟨[], 0, rem⟩ (by simpa using hndr) (by simp)
    dsimp only
    unfold allocDay
    refine ⟨hfold.1.1, ?_⟩
    have h2 := hfold.1.2
    nth_rewrite 2 [hlen] at h2
    exact h2
  · intro d hd
    simp at hd

/-- Witness for C10 at a concrete run with one subject: the single generated
day has distinct task names and at most `min(5, 1)` tasks. -/
theorem C10_witness :
    ((DayPlan.mk "Day 1: Monday" [⟨"A", 1, false⟩] []).tasks.map fun tk => tk.name).Nodup ∧
      (DayPlan.mk "Day 1: Monday" [⟨"A", 1, false⟩] []).tasks.length ≤
        min (Config.mk ["Monday"] 2 5 1 []).maxSubjectsPerDay
          [Subject.mk "A" 10 .easy 2].length :=
  C10_day_subjects_distinct [⟨"A", 10, .easy, 2⟩] ⟨["Monday"], 2, 5, 1, []⟩ ⟨0, true⟩ (by decide)
    (DayPlan.mk "Day 1: Monday" [⟨"A", 1, false⟩] []) (by with_unfolding_all decide)

end StudyPlanner

namespace StudyPlanner

theorem claimSlots_zero (slots : List Slot) (c : ℕ) (name : String) :
    claimSlots slots c 0 name = slots := by
  unfold claimSlots
  apply List.ext_getElem (by simp)
  intro i h1 h2
  rw [List.getElem_mapIdx, if_neg (by omega)]

theorem firstWindow_zero (l : List Slot) : firstWindow 0 l = some 0 := by
  cases l <;> simp [firstWindow, windowFree]

theorem firstWindow_nil_of_pos (n : ℕ) (h : n ≠ 0) : firstWindow n [] = none := by
  simp [firstWindow, windowFree, h]

theorem firstWindow_tail (n : ℕ) (l : List Slot) (h : firstWindow n l = none) :
    firstWindow n l.tail = none := by
  cases l with
  | nil => exact h
  | cons x rest =>
    unfold firstWindow at h
    by_cases hw : windowFree n (x :: rest) = true
    · rw [if_pos hw] at h
      exact absurd h (by simp)
    · rw [if_neg hw] at h
      exact Option.map_eq_none'.mp h

theorem claimAssign_out (slots : List Slot) :
    ∀ (tasks : List TaskEntry) (c : ℕ), slots.length ≤ c →
      claimAssignAux slots tasks c = slots
  | [], _, _ => rfl
  | t :: rest, c, h => by
    have hd : slots.drop c = [] := List.drop_eq_nil_of_le h
    by_cases hn : slotsNeeded t.hours = 0
    · have hfw : firstWindow 0 (slots.drop c) = some 0 := firstWindow_zero _
      simp only [claimAssignAux, hn, hfw, claimSlots_zero, Nat.add_zero]
      exact claimAssign_out slots rest c h
    · have hfw : firstWindow (slotsNeeded t.hours) (slots.drop c) = none := by
        rw [hd]
        exact firstWindow_nil_of_pos _ hn
      simp only [claimAssignAux, hfw]

theorem seekFrom_some (slots : List Slot) (n c k w : ℕ)
    (hf : firstWindow n (slots.drop c) = some w) (hk : k ≠ 0) :
    seekFrom slots n c k = some (c + w) := by
  cases k with
  | zero => exact absurd rfl hk
  | succ k =>
    unfold seekFrom
    rw [hf]

theorem seekFrom_none (slots : List Slot) (n : ℕ) :
    ∀ (k c : ℕ), firstWindow n (slots.drop c) = none → seekFrom slots n c k = none
  | 0, _, _ => rfl
  | k + 1, c, h => by
    unfold seekFrom
    rw [h]
    exact seekFrom_none slots n k (c + 1) (by
      have ht := firstWindow_tail n (slots.drop c) h
      rwa [List.tail_drop] at ht)

theorem assignAux_eq_claim :
    ∀ (tasks : List TaskEntry) (slots : List Slot) (c : ℕ),
      assignAux slots tasks c = claimAssignAux slots tasks c
  | [], _, _ => rfl
  | t :: rest, slots, c => by
    by_cases hc : c < slots.length
    · cases hf : firstWindow (slotsNeeded t.hours) (slots.drop c) with
      | some w =>
        have hs := seekFrom_some slots (slotsNeeded t.hours) c (slots.length - c) w hf (by omega)
        simp only [assignAux, claimAssignAux, hs, hf]
        exact assignAux_eq_claim rest _ _
      | none =>
        have hs := seekFrom_none slots (slotsNeeded t.hours) (slots.length - c) c hf
        simp only [assignAux, claimAssignAux, hs, hf]
    · have hcl : slots.length ≤ c := Nat.le_of_not_lt hc
      have hs : seekFrom slots (slotsNeeded t.hours) c (slots.length - c) = none := by
        rw [Nat.sub_eq_zero_of_le hcl]
        rfl
      simp only [assignAux, hs]
      exact (claimAssign_out slots (t :: rest) c hcl).symm

/-- C4 (amended): the scheduler sorts the day's tasks by allocated hours
descending and processes them in that order with a cursor into the surviving
slot sequence; each task claims the first run of `int(hours × 2)` consecutive
still-unclaimed slots found at or after the cursor, after which the cursor
advances just past the run; when a task finds no such run the cursor creeps to
the end of the sequence and the loop exits, so the first unplaceable task and
every task after it receive no time slots (their hours remain allocated for
load-summary purposes but unscheduled in time). -/
theorem C4_amended_assign (tasks : List TaskEntry) (windows : List Interval) :
    assignStudyTimes tasks windows = claimAssignTimes tasks windows := by
  unfold assignStudyTimes claimAssignTimes
  by_cases h1 : windows = []
  · rw [if_pos h1, if_pos h1]
  · rw [if_neg h1, if_neg h1]
    dsimp only
    by_cases h2 : buildSlots windows = []
    · rw [if_pos h2, if_pos h2]
    · rw [if_neg h2, if_neg h2, assignAux_eq_claim]

end StudyPlanner

namespace StudyPlanner

theorem claimSlots_map_start (slots : List Slot) (s n : ℕ) (name : String) :
    (claimSlots slots s n name).map (fun x => x.start) = slots.map fun x => x.start := by
  unfold claimSlots
  apply List.ext_getElem (by simp)
  intro i h1 h2
  simp only [List.getElem_map, List.getElem_mapIdx]
  split <;> rfl

theorem assignAux_map_start :
    ∀ (tasks : List TaskEntry) (slots : List Slot) (c : ℕ),
      (assignAux slots tasks c).map (fun x => x.start) = slots.map fun x => x.start
  | [], _, _ => rfl
  | t :: rest, slots, c => by
    cases hs : seekFrom slots (slotsNeeded t.hours) c (slots.length - c) with
    | none => simp only [assignAux, hs]
    | some s =>
      simp only [assignAux, hs]
      rw [assignAux_map_start rest _ _, claimSlots_map_start]

theorem windowSlots_mem (w : Interval) (s : Slot) (hs : s ∈ windowSlots w) :
    w.start ≤ s.start ∧ s.start + 30 ≤ w.stop ∧ isTimeConflict (slotIv s) = false := by
  unfold windowSlots at hs
  have hconf := List.of_mem_filter hs
  have hmem := List.mem_of_mem_filter hs
  simp only [List.mem_map, List.mem_range] at hmem
  obtain ⟨i, hi, rfl⟩ := hmem
  refine ⟨by simp, ?_, by simpa [Bool.not_eq_false'] using hconf⟩
  simp only
  omega

theorem windowSlots_pairwise (w : Interval) :
    (windowSlots w).Pairwise fun a b => a.start + 30 ≤ b.start := by
  unfold windowSlots
  apply List.Pairwise.sublist (List.filter_sublist _)
  rw [List.pairwise_map]
  exact (List.pairwise_lt_range _).imp (by intro i j hij; simp only; omega)

theorem optionsDisjoint :
    ∀ a ∈ timeSlotOptions, ∀ b ∈ timeSlotOptions, a ≠ b →
      a.stop ≤ b.start ∨ b.stop ≤ a.start := by decide

theorem buildSlots_pairwise :
    ∀ windows : List Interval, windows.Nodup → (∀ w ∈ windows, w ∈ timeSlotOptions) →
      (buildSlots windows).Pairwise fun a b =>
        a.start + 30 ≤ b.start ∨ b.start + 30 ≤ a.start
  | [], _, _ => by simp [buildSlots]
  | w :: ws, hnd, hopt => by
    have hnd' := List.nodup_cons.mp hnd
    rw [buildSlots, List.flatMap_cons]
    apply List.pairwise_append.mpr
    refine ⟨(windowSlots_pairwise w).imp fun h => Or.inl h, ?_, ?_⟩
    · exact buildSlots_pairwise ws hnd'.2 fun x hx => hopt x (List.mem_cons_of_mem _ hx)
    · intro a ha b hb
      obtain ⟨w', hw', hbw'⟩ := List.mem_flatMap.mp hb
      have hww' : w ≠ w' := fun he => hnd'.1 (he ▸ hw')
      have hdisj := optionsDisjoint w (hopt w (List.mem_cons_self _ _)) w'
        (hopt w' (List.mem_cons_of_mem _ hw')) hww'
      have hA := windowSlots_mem w a ha
      have hB := windowSlots_mem w' b hbw'
      rcases hdisj with h | h
      · left; omega
      · right; omega

theorem buildSlots_noConflict (windows : List Interval) (s : Slot)
    (hs : s ∈ buildSlots windows) : isTimeConflict (slotIv s) = false := by
  obtain ⟨w, _, hsw⟩ := List.mem_flatMap.mp hs
  exact (windowSlots_mem w s hsw).2.2

theorem noConflict_blocked (s : Slot) (h : isTimeConflict (slotIv s) = false) :
    ∀ b ∈ prayerIntervals ++ breakIntervals, ¬intersects (slotIv s) b := by
  intro b hb
  unfold isTimeConflict at h
  simp only [Bool.or_eq_false_iff, List.any_eq_false] at h
  have hov : overlapsB (slotIv s) b = false := by
    rcases List.mem_append.mp hb with hp | hp
    · exact Bool.eq_false_iff.mpr (h.1 b hp)
    · exact Bool.eq_false_iff.mpr (h.2 b hp)
  unfold overlapsB at hov
  simp only [Bool.not_eq_false', Bool.or_eq_true, decide_eq_true_eq] at hov
  exact fun hc => hc hov

/-- C7: in any generation run the preferred windows are distinct selections
from the sidebar's eight pairwise disjoint two-hour options; the resulting
time slots therefore never intersect one another (half-open overlap test), and
none of them intersects any blocked prayer or break interval. -/
theorem C7_slot_disjointness (tasks : List TaskEntry) (windows : List Interval)
    (hnd : windows.Nodup) (hopt : ∀ w ∈ windows, w ∈ timeSlotOptions) :
    (assignStudyTimes tasks windows).Pairwise
      (fun a b => ¬intersects (slotIv a) (slotIv b)) ∧
    ∀ s ∈ assignStudyTimes tasks windows, ∀ b ∈ prayerIntervals ++ breakIntervals,
      ¬intersects (slotIv s) b := by
  unfold assignStudyTimes
  by_cases h1 : windows = []
  · rw [if_pos h1]
    exact ⟨List.Pairwise.nil, by simp⟩
  · rw [if_neg h1]
    dsimp only
    by_cases h2 : buildSlots windows = []
    · rw [if_pos h2]
      exact ⟨List.Pairwise.nil, by simp⟩
    · rw [if_neg h2]
      have hmap : (assignAux (buildSlots windows) (tasks.insertionSort taskGE) 0).map
          (fun x => x.start) = (buildSlots windows).map fun x => x.start :=
        assignAux_map_start _ _ _
      have hpw0 : ((buildSlots windows).map fun x => x.start).Pairwise
          (fun a b => a + 30 ≤ b ∨ b + 30 ≤ a) :=
        List.pairwise_map.mpr ((buildSlots_pairwise windows hnd hopt).imp fun h => h)
      rw [← hmap] at hpw0
      have hpwf := List.pairwise_map.mp hpw0
      have hbl : ∀ s ∈ assignAux (buildSlots windows) (tasks.insertionSort taskGE) 0,
          isTimeConflict (slotIv s) = false := by
        intro s hsf
        have hstart : s.start ∈ (assignAux (buildSlots windows)
            (tasks.insertionSort taskGE) 0).map fun x => x.start :=
          List.mem_map_of_mem _ hsf
        rw [hmap] at hstart
        obtain ⟨s0, hs0, he⟩ := List.mem_map.mp hstart
        have h0 := buildSlots_noConflict windows s0 hs0
        unfold slotIv at h0 ⊢
        rw [← he]
        exact h0
      constructor
      · apply List.Pairwise.sublist (List.filter_sublist _)
        refine hpwf.imp ?_
        intro a b hab hc
        exact hc hab
      · intro s hsf b hb
        exact noConflict_blocked s (hbl s (List.mem_of_mem_filter hsf)) b hb

/-- Witness for C7 at a concrete window selection and task list. -/
theorem C7_witness :
    (assignStudyTimes [⟨"A", 1, false⟩] [⟨480, 600⟩]).Pairwise
      (fun a b => ¬intersects (slotIv a) (slotIv b)) ∧
    ∀ s ∈ assignStudyTimes [⟨"A", 1, false⟩] [⟨480, 600⟩],
      ∀ b ∈ prayerIntervals ++ breakIntervals, ¬intersects (slotIv s) b :=
  C7_slot_disjointness [⟨"A", 1, false⟩] [⟨480, 600⟩] (by decide) (by decide)

end StudyPlanner
